import Mathlib

/-!
A shallow embedding of the context-tracking and prompt-assembly core of the
ai-copilot VS Code extension (contextService.ts and autoCompleteProvider.ts),
together with proofs about it.

Modelling conventions:
* JS strings are Lean `String`s; JS numeric timestamps are `Int` (milliseconds);
  fractional JS number constants (0.017, 0.3, 0.1, 0.6, 0.7) are exact
  rationals.  JS double rounding can shift a budget or time threshold by less
  than one part in 10^12; no statement proved here hinges on such a boundary.
* `text.length` counts characters; on the ASCII text involved this agrees with
  the UTF-16 code-unit count used by JS.
* Matching of the per-language regular-expression tables is abstracted as a
  function argument `rex pat content` modelling `content.match(pat)` (with
  `none` for a null result); nothing proved here depends on its behaviour.
  The fallback pattern `/$/` needs no abstraction: it matches the empty string
  at the end of every input, so `content.match(/$/)` returns a one-element
  array holding the empty string and never returns null.
-/

/-- Whitespace in the sense of `String.prototype.trim` and of `\s`, restricted
to the ASCII range (which covers every character the sources can emit). -/
def wsChar (c : Char) : Bool :=
  c = ' ' ∨ c = '\t' ∨ c = '\n' ∨ c = '\r' ∨ c = '\x0b' ∨ c = '\x0c'

/-- The pattern `p` occurs contiguously inside `s`. -/
def occursIn (p s : List Char) : Prop := ∃ a b, s = a ++ p ++ b

theorem occursIn_trans {p q s : List Char} (h1 : occursIn p q) (h2 : occursIn q s) :
    occursIn p s := by
  obtain ⟨a, b, rfl⟩ := h1
  obtain ⟨x, y, rfl⟩ := h2
  exact ⟨x ++ a, b ++ y, by simp⟩

theorem occursIn_of_decomp {p s a b : List Char} (h : s = a ++ p ++ b) : occursIn p s :=
  ⟨a, b, h⟩

/-- Model of `.replace(/\n\n\n+/g, "\n\n")`: every maximal run of `k`
newline characters is replaced by `min k 2` newlines.  The accumulator `k`
counts the newlines of the run currently being read. -/
def collapseNLAux : Nat → List Char → List Char
  | k, [] => List.replicate (min k 2) '\n'
  | k, c :: rest =>
      if c = '\n' then collapseNLAux (k + 1) rest
      else List.replicate (min k 2) '\n' ++ c :: collapseNLAux 0 rest

def collapseNL (l : List Char) : List Char := collapseNLAux 0 l

/-- A newline-free block at the front of the input is emitted verbatim by the
newline collapser. -/
theorem collapseNLAux_emit (p : List Char) (hp : '\n' ∉ p) (b : List Char) :
    collapseNLAux 0 (p ++ b) = p ++ collapseNLAux 0 b := by
  induction p with
  | nil => simp
  | cons d q ih =>
      have hd : d ≠ '\n' := fun h => hp (h ▸ List.mem_cons_self d q)
      have hq : '\n' ∉ q := fun h => hp (List.mem_cons_of_mem d h)
      simp [collapseNLAux, hd, ih hq]

/-- Characters other than the newline are never dropped by the collapser. -/
theorem collapseNLAux_mem {x : Char} (hx : x ≠ '\n') :
    ∀ (l : List Char) (k : Nat), x ∈ l → x ∈ collapseNLAux k l := by
  intro l
  induction l with
  | nil => intro k h; cases h
  | cons c rest ih =>
      intro k h
      by_cases hc : c = '\n'
      · subst hc
        simp [collapseNLAux]
        rcases List.mem_cons.mp h with h1 | h2
        · exact absurd h1 hx
        · exact ih (k + 1) h2
      · simp [collapseNLAux, hc]
        rcases List.mem_cons.mp h with h1 | h2
        · subst h1; simp
        · simp [ih 0 h2]

/-- Collapsing newline runs preserves an occurrence of a nonempty newline-free
pattern, and keeps every non-newline character of the two sides of the
occurrence on their respective sides. -/
theorem collapseNLAux_ctx (p : List Char) (hp : '\n' ∉ p) (hne : p ≠ []) :
    ∀ (a : List Char) (k : Nat) (b : List Char),
      ∃ a2 b2, collapseNLAux k (a ++ p ++ b) = a2 ++ p ++ b2 ∧
        (∀ x ∈ a, x ≠ '\n' → x ∈ a2) ∧ (∀ x ∈ b, x ≠ '\n' → x ∈ b2) := by
  intro a
  induction a with
  | nil =>
      intro k b
      obtain ⟨c, q, rfl⟩ := List.exists_cons_of_ne_nil hne
      have hc : c ≠ '\n' := fun h => hp (h ▸ List.mem_cons_self c q)
      have hq : '\n' ∉ q := fun h => hp (List.mem_cons_of_mem c h)
      refine ⟨List.replicate (min k 2) '\n', collapseNLAux 0 b, ?_, ?_, ?_⟩
      · have : (c :: q) ++ b = c :: (q ++ b) := by simp
        rw [List.nil_append, this]
        simp only [collapseNLAux, hc, if_neg (by exact hc)]
        rw [collapseNLAux_emit q hq b]
        simp
      · intro x hx; cases hx
      · intro x hx hnx; exact collapseNLAux_mem hnx b 0 hx
  | cons c a ih =>
      intro k b
      by_cases hc : c = '\n'
      · subst hc
        obtain ⟨a2, b2, heq, ha, hb⟩ := ih (k + 1) b
        refine ⟨a2, b2, ?_, ?_, hb⟩
        · simpa [collapseNLAux] using heq
        · intro x hx hnx
          rcases List.mem_cons.mp hx with h1 | h2
          · exact absurd h1 hnx
          · exact ha x h2 hnx
      · obtain ⟨a2, b2, heq, ha, hb⟩ := ih 0 b
        refine ⟨List.replicate (min k 2) '\n' ++ c :: a2, b2, ?_, ?_, hb⟩
        · have hstep : collapseNLAux k ((c :: a) ++ p ++ b)
              = List.replicate (min k 2) '\n' ++ c :: collapseNLAux 0 (a ++ p ++ b) := by
            simp [collapseNLAux, hc]
          rw [hstep, heq]
          simp [List.append_assoc]
        · intro x hx hnx
          rcases List.mem_cons.mp hx with h1 | h2
          · subst h1; simp
          · simp [ha x h2 hnx]

/-- Model of `.trim()` (whitespace taken from `wsChar`). -/
def trimList (l : List Char) : List Char :=
  ((l.dropWhile wsChar).reverse.dropWhile wsChar).reverse

theorem dropWhile_append_of_exists {a t : List Char}
    (h : ∃ x ∈ a, wsChar x = false) :
    List.dropWhile wsChar (a ++ t) = List.dropWhile wsChar a ++ t := by
  induction a with
  | nil => obtain ⟨x, hx, _⟩ := h; cases hx
  | cons c q ih =>
      by_cases hc : wsChar c
      · obtain ⟨x, hx, hxw⟩ := h
        rcases List.mem_cons.mp hx with h1 | h2
        · subst h1; rw [hc] at hxw; cases hxw
        · simp only [List.cons_append, List.dropWhile_cons, hc, if_true]
          exact ih ⟨x, h2, hxw⟩
      · simp [List.dropWhile_cons, hc]

theorem dropWhile_append_of_all {a t : List Char}
    (h : ∀ x ∈ a, wsChar x = true) :
    List.dropWhile wsChar (a ++ t) = List.dropWhile wsChar t := by
  induction a with
  | nil => simp
  | cons c q ih =>
      simp only [List.cons_append, List.dropWhile_cons, h c (List.mem_cons_self c q), if_true]
      exact ih (fun x hx => h x (List.mem_cons_of_mem c hx))

/-- Trimming preserves an occurrence of a pattern that has a non-whitespace
character somewhere on each of its two sides. -/
theorem trimList_ctx {p a b l : List Char} (hl : l = a ++ p ++ b)
    (ha : ∃ x ∈ a, wsChar x = false) (hb : ∃ x ∈ b, wsChar x = false) :
    occursIn p (trimList l) := by
  subst hl
  unfold trimList
  have h1 : List.dropWhile wsChar (a ++ p ++ b) = List.dropWhile wsChar a ++ (p ++ b) := by
    rw [List.append_assoc]
    exact dropWhile_append_of_exists ha
  rw [h1]
  have h2 : (List.dropWhile wsChar a ++ (p ++ b)).reverse
      = b.reverse ++ (p.reverse ++ (List.dropWhile wsChar a).reverse) := by
    simp [List.reverse_append]
  rw [h2]
  have hbrev : ∃ x ∈ b.reverse, wsChar x = false := by
    obtain ⟨x, hx, hxw⟩ := hb
    exact ⟨x, List.mem_reverse.mpr hx, hxw⟩
  rw [dropWhile_append_of_exists hbrev]
  refine ⟨(List.dropWhile wsChar a), (List.dropWhile wsChar b.reverse).reverse, ?_⟩
  simp [List.reverse_append]

/-- Dropping leading whitespace preserves (with the same right side) an
occurrence of a pattern whose first character is not whitespace. -/
theorem dropWhile_keep_head {p : List Char} (a b : List Char)
    (hph : ∃ c q, p = c :: q ∧ wsChar c = false) :
    ∃ a1, List.dropWhile wsChar (a ++ p ++ b) = a1 ++ p ++ b := by
  obtain ⟨c, q, rfl, hc⟩ := hph
  by_cases hA : ∃ x ∈ a, wsChar x = false
  · refine ⟨List.dropWhile wsChar a, ?_⟩
    rw [List.append_assoc, dropWhile_append_of_exists hA, List.append_assoc]
  · have hall : ∀ x ∈ a, wsChar x = true := by
      intro x hx
      by_contra hxx
      exact hA ⟨x, hx, by simpa using hxx⟩
    refine ⟨[], ?_⟩
    rw [List.append_assoc, dropWhile_append_of_all hall]
    simp [List.dropWhile_cons, hc]

/-- Trimming preserves an occurrence of a nonempty pattern that contains no
whitespace at all. -/
theorem trimList_keep {p l : List Char} (hne : p ≠ [])
    (hp : ∀ x ∈ p, wsChar x = false) (h : occursIn p l) :
    occursIn p (trimList l) := by
  obtain ⟨a, b, rfl⟩ := h
  have hhead : ∃ c q, p = c :: q ∧ wsChar c = false := by
    obtain ⟨c, q, rfl⟩ := List.exists_cons_of_ne_nil hne
    exact ⟨c, q, rfl, hp c (List.mem_cons_self c q)⟩
  obtain ⟨a1, h1⟩ := dropWhile_keep_head a b hhead
  have hrevhead : ∃ c q, p.reverse = c :: q ∧ wsChar c = false := by
    have hne2 : p.reverse ≠ [] := by simpa using hne
    obtain ⟨c, q, hcq⟩ := List.exists_cons_of_ne_nil hne2
    refine ⟨c, q, hcq, ?_⟩
    have : c ∈ p.reverse := by rw [hcq]; simp
    exact hp c (List.mem_reverse.mp this)
  have h2 : (a1 ++ p ++ b).reverse = b.reverse ++ p.reverse ++ a1.reverse := by
    simp [List.reverse_append, List.append_assoc]
  obtain ⟨b1, h3⟩ := dropWhile_keep_head b.reverse a1.reverse hrevhead
  refine ⟨a1, b1.reverse, ?_⟩
  unfold trimList
  rw [h1, h2, h3]
  simp [List.reverse_append, List.append_assoc]

/-- Scanner deciding whether the input contains a run of three or more
consecutive newline characters; `k` counts the newlines read immediately
before the current position. -/
def run3Aux : Nat → List Char → Bool
  | _, [] => false
  | k, c :: rest =>
      if c = '\n' then (if k + 1 ≥ 3 then true else run3Aux (k + 1) rest)
      else run3Aux 0 rest

/-- The output of the newline collapser never contains a run of three
newlines. -/
theorem run3_collapse (l : List Char) : ∀ k, run3Aux 0 (collapseNLAux k l) = false := by
  induction l with
  | nil =>
      intro k
      have h : min k 2 = 0 ∨ min k 2 = 1 ∨ min k 2 = 2 := by omega
      rcases h with h | h | h <;> simp [collapseNLAux, h] <;> decide
  | cons c rest ih =>
      intro k
      by_cases hc : c = '\n'
      · subst hc
        simpa [collapseNLAux] using ih (k + 1)
      · have h : min k 2 = 0 ∨ min k 2 = 1 ∨ min k 2 = 2 := by omega
        rcases h with h | h | h <;> simp [collapseNLAux, hc, h, run3Aux] <;> exact ih 0

theorem run3_nl3 : ∀ (a : List Char) (j : Nat) (b : List Char),
    run3Aux j (a ++ '\n' :: '\n' :: '\n' :: b) = true := by
  intro a
  induction a with
  | nil =>
      intro j b
      by_cases h1 : j + 1 ≥ 3
      · simp [run3Aux, h1]
      · by_cases h2 : j + 1 + 1 ≥ 3
        · simp [run3Aux, h1, h2]
        · simp [run3Aux, h1, h2, show j + 1 + 1 + 1 ≥ 3 by omega]
  | cons c a ih =>
      intro j b
      by_cases hc : c = '\n'
      · subst hc
        by_cases h1 : j + 1 ≥ 3 <;> simp [run3Aux, h1, ih]
      · simp [run3Aux, hc, ih]

/-- Completeness of the scanner: an occurrence of three consecutive newlines
makes it return `true`. -/
theorem run3_of_occurs {l : List Char} (h : occursIn ['\n', '\n', '\n'] l) :
    run3Aux 0 l = true := by
  obtain ⟨a, b, rfl⟩ := h
  simpa using run3_nl3 a 0 b

theorem dropWhile_eq_drop (p : Char → Bool) (l : List Char) :
    ∃ n, l.dropWhile p = l.drop n := by
  induction l with
  | nil => exact ⟨0, rfl⟩
  | cons c rest ih =>
      by_cases hc : p c
      · obtain ⟨n, hn⟩ := ih
        exact ⟨n + 1, by simp [List.dropWhile_cons, hc, hn]⟩
      · exact ⟨0, by simp [List.dropWhile_cons, hc]⟩

theorem occursIn_of_dropWhile {p l : List Char}
    (h : occursIn p (List.dropWhile wsChar l)) : occursIn p l := by
  obtain ⟨n, hn⟩ := dropWhile_eq_drop wsChar l
  rw [hn] at h
  obtain ⟨a, b, hab⟩ := h
  refine ⟨l.take n ++ a, b, ?_⟩
  conv_lhs => rw [← List.take_append_drop n l]
  rw [hab]
  simp [List.append_assoc]

theorem occursIn_of_reverse {p l : List Char} (h : occursIn p l.reverse) :
    occursIn p.reverse l := by
  obtain ⟨a, b, hab⟩ := h
  refine ⟨b.reverse, a.reverse, ?_⟩
  have := congrArg List.reverse hab
  simpa [List.reverse_append, List.append_assoc] using this

/-- Every occurrence inside the trimmed string was an occurrence in the
original string. -/
theorem occursIn_of_trimList {p l : List Char} (h : occursIn p (trimList l)) :
    occursIn p l := by
  unfold trimList at h
  have h1 := occursIn_of_reverse h
  have h2 := occursIn_of_dropWhile h1
  have h3 := occursIn_of_reverse h2
  rw [List.reverse_reverse] at h3
  exact occursIn_of_dropWhile h3

theorem dropWhile_head_not {p : Char → Bool} {l : List Char} {c : Char}
    (h : (l.dropWhile p).head? = some c) : p c = false := by
  induction l with
  | nil => simp at h
  | cons d rest ih =>
      by_cases hd : p d
      · rw [List.dropWhile_cons, if_pos hd] at h
        exact ih h
      · rw [List.dropWhile_cons, if_neg hd] at h
        simp at h
        subst h
        simpa using hd

theorem getLast?_of_drop {l : List Char} {n : Nat} {c : Char}
    (h : (l.drop n).getLast? = some c) : l.getLast? = some c := by
  have h2 : (l.take n ++ l.drop n).getLast? = (l.drop n).getLast?.or (l.take n).getLast? :=
    List.getLast?_append
  rw [List.take_append_drop, h] at h2
  simpa using h2

/-- The trimmed string does not begin with whitespace. -/
theorem trimList_head {l : List Char} {c : Char}
    (h : (trimList l).head? = some c) : wsChar c = false := by
  unfold trimList at h
  rw [List.head?_reverse] at h
  obtain ⟨n, hn⟩ := dropWhile_eq_drop wsChar (List.dropWhile wsChar l).reverse
  rw [hn] at h
  have h2 := getLast?_of_drop h
  rw [List.getLast?_reverse] at h2
  exact dropWhile_head_not h2

/-- The trimmed string does not end with whitespace. -/
theorem trimList_getLast {l : List Char} {c : Char}
    (h : (trimList l).getLast? = some c) : wsChar c = false := by
  unfold trimList at h
  rw [List.getLast?_reverse] at h
  exact dropWhile_head_not h

/-- Model of the JS `.trim()` method on strings. -/
def jsTrim (s : String) : String := ⟨trimList s.data⟩

/-! ## Data model of contextService.ts -/

/-- A `vscode.Range` value: start and end positions (line and character). -/
structure CodeRange where
  startLine : Nat
  startCharacter : Nat
  endLine : Nat
  endCharacter : Nat
deriving DecidableEq

/-- One recorded edit (`EditHistory` in contextService.ts). -/
structure EditHistory where
  timestamp : ℤ
  range : CodeRange
  oldText : String
  newText : String
  fileName : String
deriving DecidableEq

/-- One recorded viewed selection (`ViewedSnippet` in contextService.ts). -/
structure ViewedSnippet where
  timestamp : ℤ
  fileName : String
  content : String
  range : CodeRange
  language : String
deriving DecidableEq

/-- Cached per-file structural summary (`FileContext` in contextService.ts).
The source field `variables` is renamed `variablesList`, because `variables`
is a reserved word in Lean. -/
structure FileContext where
  fullContent : String
  language : String
  imports : List String
  functions : List String
  classes : List String
  variablesList : List String
deriving DecidableEq

def maxHistoryItems : Nat := 20

def maxSnippetItems : Nat := 10

def cacheTimeoutMs : ℤ := 5 * 60 * 1000

/-- Regular-expression source text of the per-language import patterns.  The
text is carried opaquely (matching is abstracted); the keys are what matters. -/
def importPatterns : List (String × String) :=
  [("javascript", "(import\\s+.*?from\\s+[\x27\"][^\x27\"]+[\x27\"]|require\\([\x27\"][^\x27\"]+[\x27\"]\\))"),
   ("typescript", "(import\\s+.*?from\\s+[\x27\"][^\x27\"]+[\x27\"]|require\\([\x27\"][^\x27\"]+[\x27\"]\\))"),
   ("python", "(import\\s+\\w+|from\\s+\\w+\\s+import)"),
   ("java", "(import\\s+[a-zA-Z0-9_.*]+;)"),
   ("csharp", "(using\\s+[a-zA-Z0-9_.]+;)"),
   ("ruby", "(require\\s+[\x27\"][^\x27\"]+[\x27\"])"),
   ("php", "(require\\s+[\x27\"][^\x27\"]+[\x27\"])"),
   ("css", "(import\\s+[\x27\"][^\x27\"]+[\x27\"])")]

def functionPatterns : List (String × String) :=
  [("javascript", "(function\\s+\\w+|const\\s+\\w+\\s*=\\s*\\([^)]*\\)\\s*=>|async\\s+function\\s+\\w+)"),
   ("typescript", "(function\\s+\\w+|const\\s+\\w+\\s*:\\s*\\([^)]*\\)\\s*=>|async\\s+function\\s+\\w+)"),
   ("python", "(def\\s+\\w+\\([^)]*\\):)"),
   ("java", "(public|private|protected)?\\s*(static)?\\s*\\w+\\s+\\w+\\([^)]*\\)\\s*\\\x7b"),
   ("csharp", "(public|private|protected)?\\s*(static)?\\s*\\w+\\s+\\w+\\([^)]*\\)\\s*\\\x7b"),
   ("ruby", "(def\\s+\\w+(\\(.*\\))?)"),
   ("php", "(function\\s+\\w+\\s*\\([^)]*\\)\\s*\\\x7b)"),
   ("css", "$")]

def classPatterns : List (String × String) :=
  [("javascript", "(class\\s+\\w+)"), ("typescript", "(class\\s+\\w+)"),
   ("python", "(class\\s+\\w+)"), ("java", "(class\\s+\\w+)"),
   ("csharp", "(class\\s+\\w+)"), ("ruby", "(class\\s+\\w+)"),
   ("php", "(class\\s+\\w+)"), ("css", "(class\\s+\\w+)")]

def variablePatterns : List (String × String) :=
  [("javascript", "(const|let|var)\\s+\\w+"), ("typescript", "(const|let|var)\\s+\\w+"),
   ("python", "(\\w+)\\s*="), ("java", "(\\w+)\\s*="),
   ("csharp", "(\\w+)\\s*="), ("ruby", "(\\w+)\\s*="),
   ("php", "(\\$\\w+)\\s*="), ("css", "$")]

/-- Result of `content.match(/$/)`, the fallback for languages absent from a
pattern table: the pattern matches the empty string at the end of every input,
so the call never returns null and yields exactly one empty-string match. -/
def matchDollar (content : String) : List String := [""]

/-- `extractImports` from contextService.ts.  `rex pat content` abstracts
`content.match(<table pattern>)`; the `|| []` null guard is `Option.getD`. -/
def extractImports (rex : String → String → Option (List String))
    (content language : String) : List String :=
  match importPatterns.lookup language with
  | some pat => ((rex pat content).getD []).map jsTrim
  | none => (matchDollar content).map jsTrim

def extractFunctions (rex : String → String → Option (List String))
    (content language : String) : List String :=
  match functionPatterns.lookup language with
  | some pat => ((rex pat content).getD []).map jsTrim
  | none => (matchDollar content).map jsTrim

def extractClasses (rex : String → String → Option (List String))
    (content language : String) : List String :=
  match classPatterns.lookup language with
  | some pat => ((rex pat content).getD []).map jsTrim
  | none => (matchDollar content).map jsTrim

def extractVariables (rex : String → String → Option (List String))
    (content language : String) : List String :=
  match variablePatterns.lookup language with
  | some pat => ((rex pat content).getD []).map jsTrim
  | none => (matchDollar content).map jsTrim

/-- `analyzeFile` from contextService.ts. -/
def analyzeFile (rex : String → String → Option (List String))
    (content language : String) : FileContext :=
  { fullContent := content
    language := language
    imports := extractImports rex content language
    functions := extractFunctions rex content language
    classes := extractClasses rex content language
    variablesList := extractVariables rex content language }

/-- `getRecentEditHistory`: edits with `timestamp > now - minutes*60*1000`. -/
def getRecentEditHistory (editHistory : List EditHistory) (minutes : ℚ) (now : ℤ) :
    List EditHistory :=
  editHistory.filter (fun edit =>
    decide ((now : ℚ) - minutes * (60 * 1000) < (edit.timestamp : ℚ)))

/-- `getEditHistoryForFile`: the recent edits restricted to one file. -/
def getEditHistoryForFile (editHistory : List EditHistory) (fileName : String)
    (minutes : ℚ) (now : ℤ) : List EditHistory :=
  (getRecentEditHistory editHistory minutes now).filter (fun edit =>
    decide (edit.fileName = fileName))

def getRecentViewedSnippets (viewedSnippets : List ViewedSnippet) (minutes : ℚ)
    (now : ℤ) : List ViewedSnippet :=
  viewedSnippets.filter (fun snippet =>
    decide ((now : ℚ) - minutes * (60 * 1000) < (snippet.timestamp : ℚ)))

def getSnippetsForLanguage (viewedSnippets : List ViewedSnippet) (language : String)
    (minutes : ℚ) (now : ℤ) : List ViewedSnippet :=
  (getRecentViewedSnippets viewedSnippets minutes now).filter (fun snippet =>
    decide (snippet.language = language))

/-- The mutable state of one editing session: the two ActivityStore rings and
the analysis cache of the `ContextService` instance, together with the current
text of every document (owned by the editor host; an edit event mutates it
before the change notification is delivered). -/
structure World where
  editHistory : List EditHistory
  viewedSnippets : List ViewedSnippet
  fileContextCache : String → Option FileContext
  docContent : String → String

/-- One entry of `event.contentChanges`.  `rangeTextAfterEdit` is the value
`event.document.getText(change.range)` reads off the already-mutated document;
it is supplied by the host event rather than recomputed here. -/
structure ChangeRec where
  range : CodeRange
  text : String
  rangeTextAfterEdit : String
deriving DecidableEq

/-- The `EditHistory` record built for one content change (`change.text` is
truthy exactly when it is nonempty). -/
def mkEditFromChange (fileName : String) (now : ℤ) (change : ChangeRec) : EditHistory :=
  { timestamp := now
    range := change.range
    oldText := if change.text ≠ "" then "" else change.rangeTextAfterEdit
    newText := change.text
    fileName := fileName }

/-- `slice(-maxItems)` applied when the length exceeds `maxItems`. -/
def truncateTo {α : Type} (maxItems : Nat) (l : List α) : List α :=
  if l.length > maxItems then l.drop (l.length - maxItems) else l

/-- `onDocumentChange`: push one record per content change, truncate the ring,
and invalidate the cache entry of the edited file.  An event with no content
changes returns early. -/
def onDocumentChange (world : World) (fileName : String) (changes : List ChangeRec)
    (newContent : String) (now : ℤ) : World :=
  if changes.isEmpty then world
  else
    { world with
      editHistory :=
        truncateTo maxHistoryItems (world.editHistory ++ changes.map (mkEditFromChange fileName now))
      fileContextCache := fun g => if g = fileName then none else world.fileContextCache g
      docContent := fun g => if g = fileName then newContent else world.docContent g }

/-- `onSelectionChange`: a nonempty selection is pushed onto the snippet ring,
which is truncated to `maxSnippetItems`. -/
def onSelectionChange (langOf : String → String) (world : World) (fileName : String)
    (selection : Option (CodeRange × String)) (now : ℤ) : World :=
  match selection with
  | none => world
  | some (range, content) =>
      { world with
        viewedSnippets :=
          truncateTo maxSnippetItems (world.viewedSnippets ++
            [{ timestamp := now, fileName := fileName, content := content,
               range := range, language := langOf fileName }]) }

/-- `getFileContext`: return the cached entry if present, otherwise analyze the
current document content and cache the result (the expiry timer started here is
modelled by `cacheExpire` events). -/
def getFileContext (rex : String → String → Option (List String)) (world : World)
    (fileName content language : String) : FileContext × World :=
  match world.fileContextCache fileName with
  | some cached => (cached, world)
  | none =>
      let ctx := analyzeFile rex content language
      (ctx, { world with
              fileContextCache := fun g => if g = fileName then some ctx else world.fileContextCache g })

/-- `getFileContext` invoked on the current document of `fileName`. -/
def serviceGet (rex : String → String → Option (List String)) (langOf : String → String)
    (world : World) (fileName : String) : FileContext × World :=
  getFileContext rex world fileName (world.docContent fileName) (langOf fileName)

/-- The host notifications consumed by the service, plus the deferred cache
expiry callback. -/
inductive HostEvent where
  | docChange (fileName : String) (changes : List ChangeRec) (newContent : String) (now : ℤ)
  | selChange (fileName : String) (selection : Option (CodeRange × String)) (now : ℤ)
  | contextGet (fileName : String)
  | cacheExpire (fileName : String)
  | docClose (fileName : String)
deriving DecidableEq

def stepEvent (rex : String → String → Option (List String)) (langOf : String → String)
    (world : World) : HostEvent → World
  | .docChange fileName changes newContent now =>
      onDocumentChange world fileName changes newContent now
  | .selChange fileName selection now =>
      onSelectionChange langOf world fileName selection now
  | .contextGet fileName => (serviceGet rex langOf world fileName).2
  | .cacheExpire fileName =>
      { world with fileContextCache := fun g => if g = fileName then none else world.fileContextCache g }
  | .docClose fileName =>
      { world with fileContextCache := fun g => if g = fileName then none else world.fileContextCache g }

def runEvents (rex : String → String → Option (List String)) (langOf : String → String)
    (world : World) (events : List HostEvent) : World :=
  events.foldl (stepEvent rex langOf) world

def initialWorld (docs : String → String) : World :=
  { editHistory := [], viewedSnippets := [], fileContextCache := fun _ => none,
    docContent := docs }

/-- The edit records a single event contributes to the history. -/
def editsOfEvent : HostEvent → List EditHistory
  | .docChange fileName changes _ now => changes.map (mkEditFromChange fileName now)
  | _ => []

/-- All edit records a trace of events contributes, in order. -/
def recordedEdits : List HostEvent → List EditHistory
  | [] => []
  | e :: rest => editsOfEvent e ++ recordedEdits rest

/-! ## ActivityStore ring-buffer facts (claim C1) -/

theorem truncateTo_eq_drop {α : Type} (maxItems : Nat) (l : List α) :
    truncateTo maxItems l = l.drop (l.length - maxItems) := by
  unfold truncateTo
  split
  · rfl
  · have h : l.length - maxItems = 0 := by omega
    rw [h, List.drop_zero]

theorem truncateTo_length_le {α : Type} (maxItems : Nat) (l : List α) :
    (truncateTo maxItems l).length ≤ maxItems := by
  unfold truncateTo
  split
  · rw [List.length_drop]; omega
  · omega

theorem truncateTo_of_le {α : Type} {maxItems : Nat} {l : List α}
    (h : l.length ≤ maxItems) : truncateTo maxItems l = l := by
  unfold truncateTo
  rw [if_neg (by omega)]

theorem truncateTo_append_left {α : Type} (maxItems : Nat) (x y : List α) :
    truncateTo maxItems (truncateTo maxItems x ++ y) = truncateTo maxItems (x ++ y) := by
  rw [truncateTo_eq_drop, truncateTo_eq_drop, truncateTo_eq_drop]
  rw [← List.drop_append_of_le_length (show x.length - maxItems ≤ x.length by omega)]
  rw [List.drop_drop]
  congr 1
  simp only [List.length_drop, List.length_append]
  omega

/-- Effect of one event on the edit history: it appends the recorded edits and
truncates to capacity, and capacity is preserved. -/
theorem stepEvent_editHistory (rex : String → String → Option (List String))
    (langOf : String → String) (world : World) (e : HostEvent)
    (hlen : world.editHistory.length ≤ maxHistoryItems) :
    (stepEvent rex langOf world e).editHistory
        = truncateTo maxHistoryItems (world.editHistory ++ editsOfEvent e)
    ∧ (stepEvent rex langOf world e).editHistory.length ≤ maxHistoryItems := by
  cases e with
  | docChange fileName changes newContent now =>
      by_cases hch : changes.isEmpty
      · have hnil : changes = [] := List.isEmpty_iff.mp hch
        subst hnil
        simp [stepEvent, onDocumentChange, editsOfEvent, truncateTo_of_le hlen, hlen]
      · constructor
        · simp [stepEvent, onDocumentChange, hch, editsOfEvent]
        · simp [stepEvent, onDocumentChange, hch]
          exact truncateTo_length_le _ _
  | selChange fileName selection now =>
      cases selection with
      | none => simpa [stepEvent, onSelectionChange, editsOfEvent, truncateTo_of_le hlen]
          using hlen
      | some sel =>
          simp [stepEvent, onSelectionChange, editsOfEvent, truncateTo_of_le hlen, hlen]
  | contextGet fileName =>
      cases hc : world.fileContextCache fileName with
      | some cached =>
          simpa [stepEvent, serviceGet, getFileContext, hc, editsOfEvent,
            truncateTo_of_le hlen] using hlen
      | none =>
          simpa [stepEvent, serviceGet, getFileContext, hc, editsOfEvent,
            truncateTo_of_le hlen] using hlen
  | cacheExpire fileName =>
      simpa [stepEvent, editsOfEvent, truncateTo_of_le hlen] using hlen
  | docClose fileName =>
      simpa [stepEvent, editsOfEvent, truncateTo_of_le hlen] using hlen

theorem runEvents_editHistory (rex : String → String → Option (List String))
    (langOf : String → String) :
    ∀ (events : List HostEvent) (world : World),
      world.editHistory.length ≤ maxHistoryItems →
      (runEvents rex langOf world events).editHistory
        = truncateTo maxHistoryItems (world.editHistory ++ recordedEdits events) := by
  intro events
  induction events with
  | nil =>
      intro world hlen
      simp [runEvents, recordedEdits, truncateTo_of_le hlen]
  | cons e rest ih =>
      intro world hlen
      obtain ⟨h1, h2⟩ := stepEvent_editHistory rex langOf world e hlen
      have hrun : runEvents rex langOf world (e :: rest)
          = runEvents rex langOf (stepEvent rex langOf world e) rest := by
        simp [runEvents]
      rw [hrun, ih _ h2, h1, truncateTo_append_left, List.append_assoc]
      rfl

/-- C1: for every sequence of host events, the edit history after the run is
exactly the suffix of the recorded edits of length at most
`maxHistoryItems = 20`, kept in their original relative order; in particular
after 25 recorded edits the history holds exactly the last 20 of them (the
oldest 5 are dropped). -/
theorem activityStore_history_bound (rex : String → String → Option (List String))
    (langOf : String → String) (docs : String → String) (events : List HostEvent) :
    (runEvents rex langOf (initialWorld docs) events).editHistory
        = (recordedEdits events).drop ((recordedEdits events).length - maxHistoryItems)
    ∧ (runEvents rex langOf (initialWorld docs) events).editHistory.length ≤ maxHistoryItems
    ∧ ((recordedEdits events).length = 25 →
        (runEvents rex langOf (initialWorld docs) events).editHistory = (recordedEdits events).drop 5
        ∧ (runEvents rex langOf (initialWorld docs) events).editHistory.length = 20) := by
  have h := runEvents_editHistory rex langOf events (initialWorld docs) (by simp [initialWorld])
  rw [show (initialWorld docs).editHistory = [] from rfl, List.nil_append,
    truncateTo_eq_drop] at h
  refine ⟨h, ?_, ?_⟩
  · rw [h, List.length_drop]
    have : maxHistoryItems = 20 := rfl
    omega
  · intro h25
    constructor
    · rw [h, h25]
      rfl
    · rw [h, List.length_drop, h25]
      rfl

def c1Events : List HostEvent :=
  [HostEvent.docChange "a.ts"
    (List.replicate 25 { range := ⟨0, 0, 0, 0⟩, text := "x", rangeTextAfterEdit := "" })
    "x" 0]

theorem activityStore_history_bound_witness :
    (recordedEdits c1Events).length = 25
    ∧ ((runEvents (fun _ _ => none) (fun _ => "typescript") (initialWorld (fun _ => "")) c1Events).editHistory
          = (recordedEdits c1Events).drop 5
        ∧ (runEvents (fun _ _ => none) (fun _ => "typescript") (initialWorld (fun _ => "")) c1Events).editHistory.length = 20) :=
  ⟨by decide,
   (activityStore_history_bound (fun _ _ => none) (fun _ => "typescript") (fun _ => "") c1Events).2.2
     (by decide)⟩

/-! ## AnalysisCache freshness (claim C3) -/

/-- Invariant: every cached entry is the analysis of the current content of its
file (so no entry ever survives an edit of its file). -/
def cacheConsistent (rex : String → String → Option (List String))
    (langOf : String → String) (world : World) : Prop :=
  ∀ fileName ctx, world.fileContextCache fileName = some ctx →
    ctx = analyzeFile rex (world.docContent fileName) (langOf fileName)

theorem cacheConsistent_step (rex : String → String → Option (List String))
    (langOf : String → String) (world : World) (e : HostEvent)
    (h : cacheConsistent rex langOf world) :
    cacheConsistent rex langOf (stepEvent rex langOf world e) := by
  cases e with
  | docChange fileName changes newContent now =>
      by_cases hch : changes.isEmpty
      · simpa [stepEvent, onDocumentChange, hch] using h
      · intro g ctx hg
        have hstep : stepEvent rex langOf world (.docChange fileName changes newContent now)
            = { world with
                editHistory := truncateTo maxHistoryItems
                  (world.editHistory ++ changes.map (mkEditFromChange fileName now))
                fileContextCache := fun g2 => if g2 = fileName then none else world.fileContextCache g2
                docContent := fun g2 => if g2 = fileName then newContent else world.docContent g2 } := by
          simp [stepEvent, onDocumentChange, hch]
        rw [hstep] at hg ⊢
        by_cases hgf : g = fileName
        · subst hgf; simp at hg
        · simp only [if_neg hgf] at hg ⊢
          exact h g ctx hg
  | selChange fileName selection now =>
      cases selection with
      | none => simpa [stepEvent, onSelectionChange] using h
      | some sel => simpa [stepEvent, onSelectionChange] using h
  | contextGet fileName =>
      cases hc : world.fileContextCache fileName with
      | some cached => simpa [stepEvent, serviceGet, getFileContext, hc] using h
      | none =>
          intro g ctx hg
          simp only [stepEvent, serviceGet, getFileContext, hc] at hg ⊢
          by_cases hgf : g = fileName
          · subst hgf
            simp at hg
            subst hg
            rfl
          · simp only [if_neg hgf] at hg ⊢
            exact h g ctx hg
  | cacheExpire fileName =>
      intro g ctx hg
      simp only [stepEvent] at hg ⊢
      by_cases hgf : g = fileName
      · simp [hgf] at hg
      · simp only [if_neg hgf] at hg ⊢
        exact h g ctx hg
  | docClose fileName =>
      intro g ctx hg
      simp only [stepEvent] at hg ⊢
      by_cases hgf : g = fileName
      · simp [hgf] at hg
      · simp only [if_neg hgf] at hg ⊢
        exact h g ctx hg

theorem cacheConsistent_run (rex : String → String → Option (List String))
    (langOf : String → String) (docs : String → String) :
    ∀ (events : List HostEvent),
      cacheConsistent rex langOf (runEvents rex langOf (initialWorld docs) events) := by
  have hrev : ∀ (events : List HostEvent) (world : World),
      cacheConsistent rex langOf world →
      cacheConsistent rex langOf (runEvents rex langOf world events) := by
    intro events
    induction events with
    | nil => intro world h; simpa [runEvents] using h
    | cons e rest ih =>
        intro world h
        have : runEvents rex langOf world (e :: rest)
            = runEvents rex langOf (stepEvent rex langOf world e) rest := by
          simp [runEvents]
        rw [this]
        exact ih _ (cacheConsistent_step rex langOf world e h)
  intro events
  exact hrev events (initialWorld docs) (by intro f ctx hc; simp [initialWorld] at hc)

/-- C3: after any trace of events, a `getFileContext` call returns the analysis
of the current content of the file (so a cached entry never survives a later
edit of the file: an edit removes the entry and the next get recomputes from
the current content), and a second consecutive get, with no event in between,
returns the very same value. -/
theorem analysisCache_fresh_and_stable (rex : String → String → Option (List String))
    (langOf : String → String) (docs : String → String) (events : List HostEvent)
    (fileName : String) :
    (serviceGet rex langOf (runEvents rex langOf (initialWorld docs) events) fileName).1
        = analyzeFile rex
            ((runEvents rex langOf (initialWorld docs) events).docContent fileName)
            (langOf fileName)
    ∧ (serviceGet rex langOf
          (serviceGet rex langOf (runEvents rex langOf (initialWorld docs) events) fileName).2
          fileName).1
        = (serviceGet rex langOf (runEvents rex langOf (initialWorld docs) events) fileName).1 := by
  have hinv := cacheConsistent_run rex langOf docs events
  set w := runEvents rex langOf (initialWorld docs) events with hw
  constructor
  · cases hc : w.fileContextCache fileName with
    | some cached =>
        have := hinv fileName cached hc
        simpa [serviceGet, getFileContext, hc] using this
    | none => simp [serviceGet, getFileContext, hc]
  · cases hc : w.fileContextCache fileName with
    | some cached => simp [serviceGet, getFileContext, hc]
    | none => simp [serviceGet, getFileContext, hc]

/-! ## Unsupported-language analysis (claim C2) -/

/-- C2 (the code contradicts the specification here): analyzing a file in a
language that appears in none of the pattern tables does not give all-empty
lists.  The fallback `content.match(/$/)` returns the one-element array
`[""]`, never null, so each of the four lists is `[""]`.  The statement is
shown for the unsupported language `"lua"` and every content and regex
semantics. -/
theorem unsupportedLanguage_lists_not_empty (rex : String → String → Option (List String))
    (content : String) :
    (analyzeFile rex content "lua").imports = [""]
    ∧ (analyzeFile rex content "lua").functions = [""]
    ∧ (analyzeFile rex content "lua").classes = [""]
    ∧ (analyzeFile rex content "lua").variablesList = [""]
    ∧ ¬ ((analyzeFile rex content "lua").imports = []
         ∧ (analyzeFile rex content "lua").functions = []
         ∧ (analyzeFile rex content "lua").classes = []
         ∧ (analyzeFile rex content "lua").variablesList = []) := by
  have h1 : importPatterns.lookup "lua" = none := by decide
  have h2 : functionPatterns.lookup "lua" = none := by decide
  have h3 : classPatterns.lookup "lua" = none := by decide
  have h4 : variablePatterns.lookup "lua" = none := by decide
  have htrim : jsTrim "" = "" := rfl
  refine ⟨?_, ?_, ?_, ?_, ?_⟩ <;>
    simp [analyzeFile, extractImports, extractFunctions, extractClasses,
      extractVariables, matchDollar, h1, h2, h3, h4, htrim]

/-! ## autoCompleteProvider.ts: prompt elements and assembly -/

/-- A prompt element (the unused `metadata` field of the source is omitted).
`isBreak` is optional in the source and defaults to absent/false. -/
structure PromptElement where
  priority : ℤ
  content : String
  isBreak : Bool
deriving DecidableEq

/-- `PromptFormatter.singleBreak()`. -/
def singleBreak : PromptElement := { priority := 0, content := "", isBreak := true }

/-- `PromptFormatter.doubleBreak()`. -/
def doubleBreak : PromptElement := { priority := 0, content := "\n", isBreak := true }

/-- `PromptFormatter.sectionHeader`. -/
def sectionHeader (content : String) (priority : ℤ) : PromptElement :=
  { priority := priority, content := content ++ "\n", isBreak := false }

/-- `PromptFormatter.tagWrapper`. -/
def tagWrapper (content tag : String) (priority : ℤ) : List PromptElement :=
  [{ priority := priority, content := "<|" ++ tag ++ "|>", isBreak := false },
   singleBreak,
   { priority := priority - 1, content := content, isBreak := false },
   singleBreak,
   { priority := priority - 2, content := "<|/" ++ tag ++ "|>", isBreak := false },
   doubleBreak]

/-- JS `array.join("\n")`. -/
def joinNL : List String → String
  | [] => ""
  | [s] => s
  | s :: rest => s ++ "\n" ++ joinNL rest

/-- JS `array.join(", ")`. -/
def joinComma : List String → String
  | [] => ""
  | [s] => s
  | s :: rest => s ++ ", " ++ joinComma rest

/-- `estimateTokens`: `Math.ceil(text.length / 4)`. -/
def estimateTokens (text : String) : ℤ := ((text.data.length + 3) / 4 : ℕ)

/-- `addLineNumbers`: prefix every line with `<number>| `. -/
def addLineNumbers (content : String) (startLine : Nat := 0) : String :=
  joinNL ((content.splitOn "\n").mapIdx (fun index line =>
    toString (startLine + index + 1) ++ "| " ++ line))

/-- The context record assembled by `buildContext`. -/
structure PromptContext where
  cursorLine : Nat
  cursorCharacter : Nat
  codeToEdit : String
  areaAroundCode : String
  currentFileContent : String
  editHistory : List EditHistory
  viewedSnippets : List ViewedSnippet
  prefixText : String
  suffixText : String
  fileContext : FileContext
  fileName : String
  language : String
deriving DecidableEq

/-- A text document as seen by the provider: its (workspace-relative) name,
its lines, and its language id. -/
structure TextDoc where
  fileName : String
  lines : List String
  language : String
deriving DecidableEq

/-- `buildContext`: cursor line split at the cursor, ±10 lines of surrounding
text, the (cache-backed) file analysis, and the recent history slices. -/
def buildContext (rex : String → String → Option (List String)) (world : World)
    (d : TextDoc) (line char : Nat) (now : ℤ) : PromptContext × World :=
  let lineText := d.lines.getD line ""
  let prefixText : String := ⟨lineText.data.take char⟩
  let suffixText : String := ⟨lineText.data.drop char⟩
  let startL := line - 10
  let endL := min (d.lines.length - 1) (line + 10)
  let areaAroundCode := joinNL ((d.lines.drop startL).take (endL - startL + 1))
  let codeToEdit := prefixText ++ "<|cursor|>" ++ suffixText
  let result := getFileContext rex world d.fileName (joinNL d.lines) d.language
  ({ cursorLine := line
     cursorCharacter := char
     codeToEdit := codeToEdit
     areaAroundCode := addLineNumbers areaAroundCode startL
     currentFileContent := addLineNumbers result.1.fullContent 0
     editHistory := getEditHistoryForFile world.editHistory d.fileName 5 now
     viewedSnippets := getSnippetsForLanguage world.viewedSnippets d.language 10 now
     prefixText := prefixText
     suffixText := suffixText
     fileContext := result.1
     fileName := d.fileName
     language := d.language }, result.2)

/-- The text pushed for one recently viewed snippet. -/
def snippetContentOf (snippet : ViewedSnippet) : String :=
  "<|recently_viewed_code_snippet|>\nFile: " ++ snippet.fileName ++ " (" ++ snippet.language
    ++ ")\n" ++ addLineNumbers snippet.content 0 ++ "\n<|/recently_viewed_code_snippet|>\n"

/-- The snippet loop of `buildTokenAwareCopilotSections`: stop once the running
total would exceed 30 percent of the available budget (`0.3` exactly), cap at
3 snippets. -/
def snippetLoop (availableTokens : ℤ) :
    List ViewedSnippet → ℤ → Nat → List String × ℤ
  | [], tokensUsed, _ => ([], tokensUsed)
  | snippet :: rest, tokensUsed, snippetCount =>
      let snippetContent := snippetContentOf snippet
      let snippetTokens := estimateTokens snippetContent
      if ((tokensUsed + snippetTokens : ℤ) : ℚ) > (availableTokens : ℚ) * (3 / 10) then
        ([], tokensUsed)
      else if snippetCount + 1 ≥ 3 then ([snippetContent], tokensUsed + snippetTokens)
      else
        let r := snippetLoop availableTokens rest (tokensUsed + snippetTokens) (snippetCount + 1)
        (snippetContent :: r.1, r.2)

/-- The edit loop of `buildTokenAwareCopilotSections`: one line per recent
edit, stopping once past 10 percent of the available budget (`0.1` exactly). -/
def editLoop (availableTokens : ℤ) : List EditHistory → ℤ → List String × ℤ
  | [], tokensUsed => ([], tokensUsed)
  | edit :: rest, tokensUsed =>
      let changeDescription :=
        if edit.oldText ≠ "" then
          "\"" ++ edit.oldText ++ "\" -> \"" ++ edit.newText ++ "\""
        else "Added: \"" ++ edit.newText ++ "\""
      let editText := "Change at line " ++ toString (edit.range.startLine + 1) ++ ": "
        ++ changeDescription ++ "\n"
      if ((tokensUsed + estimateTokens editText : ℤ) : ℚ) > (availableTokens : ℚ) * (1 / 10) then
        ([], tokensUsed)
      else
        let r := editLoop availableTokens rest (tokensUsed + estimateTokens editText)
        (editText :: r.1, r.2)

/-- The fixed instruction block pushed before the final line (a template
literal in the source, with the file name interpolated). -/
def tailInstructionBlock (fileName : String) : String :=
  "The developer was working on a section of code within the tags `code_to_edit` in the file located at `"
    ++ fileName
    ++ "`. Using the given `recently_viewed_code_snippets`, `current_file_content`, `edit_diff_history`, `area_around_code_to_edit`, and the cursor position marked as `<|cursor|>`, please continue the developer\x27s work. Update the `code_to_edit` section by predicting and completing the changes they would have made next. Provide the revised code that was between the `<|code_to_edit|>` and `<|/code_to_edit|>` tags with the following format, but do not include the tags themselves.\n\n```\n// Your revised code goes here\n```\n\n"

/-- `buildTokenAwareCopilotSections`: budget-gated optional sections followed
by the unconditional area-around-code and code-to-edit sections and the fixed
closing instructions; returns the joined text and the token estimate. -/
def buildTokenAwareCopilotSections (ctx : PromptContext) (availableTokens : ℤ) :
    String × ℤ :=
  let r1 :=
    if availableTokens - 0 > 500 then
      let rs := snippetLoop availableTokens ctx.viewedSnippets (0 + 30) 0
      (["<|recently_viewed_code_snippets|>"] ++ rs.1 ++ ["<|/recently_viewed_code_snippets|>\n"],
       rs.2 + 30)
    else ([], (0 : ℤ))
  let r2 :=
    if availableTokens - r1.2 > 300 then
      let maxFileTokens := min (availableTokens - r1.2 - 100) 1000
      let fileContent :=
        if estimateTokens ctx.currentFileContent > maxFileTokens then
          joinNL ((ctx.currentFileContent.splitOn "\n").take 50)
            ++ "\n// ... [file content truncated] ...\n"
        else ctx.currentFileContent
      (r1.1 ++ ["<|current_file_content|>\n" ++ fileContent ++ "\n<|/current_file_content|>\n"],
       r1.2 + estimateTokens fileContent + 30)
    else r1
  let r3 :=
    if availableTokens - r2.2 > 200 ∧ ctx.editHistory.length > 0 then
      let recentEdits := ctx.editHistory.drop (ctx.editHistory.length - 3)
      let re := editLoop availableTokens recentEdits (r2.2 + 25)
      (r2.1 ++ ["<|edit_diff_history|>\n"] ++ re.1 ++ ["<|/edit_diff_history|>\n"], re.2 + 25)
    else r2
  let r4 :=
    if availableTokens - r3.2 > 150 then
      (r3.1 ++ ["<|file_analysis|>\n", "Language: " ++ ctx.fileContext.language ++ "\n"]
        ++ (if ctx.fileContext.imports.length > 0 then
              ["Imports: " ++ joinComma (ctx.fileContext.imports.take 3) ++ "\n"] else [])
        ++ (if ctx.fileContext.functions.length > 0 then
              ["Functions: " ++ joinComma (ctx.fileContext.functions.take 3) ++ "\n"] else [])
        ++ ["<|/file_analysis|>\n"], r3.2 + 100)
    else r3
  let sections := r4.1
    ++ ["<|area_around_code_to_edit|>\n" ++ ctx.areaAroundCode ++ "\n<|/area_around_code_to_edit|>\n",
        "<|code_to_edit|>\n" ++ ctx.codeToEdit ++ "\n<|/code_to_edit|>\n",
        tailInstructionBlock ctx.fileName,
        "Please provide the completed code for the cursor position:"]
  let tokensUsed := r4.2 + estimateTokens ctx.areaAroundCode + estimateTokens ctx.codeToEdit + 100
  (joinNL sections, tokensUsed)

/-- `renderOriginalDocument`: the file content with `n|`-numbered lines. -/
def renderOriginalDocument (ctx : PromptContext) : String :=
  ctx.fileName ++ ":\n"
    ++ joinNL ((ctx.currentFileContent.splitOn "\n").mapIdx (fun i line =>
        toString (i + 1) ++ "|" ++ line))

/-- `renderDocumentDiffs`: the edit history rendered as a unified-diff-like
block. -/
def renderDocumentDiffs (ctx : PromptContext) : String :=
  joinNL (["```", "---" ++ ctx.fileName ++ ":", "+++" ++ ctx.fileName ++ ":"]
    ++ (ctx.editHistory.flatMap (fun edit =>
         if edit.oldText ≠ "" then
           ["@@ -" ++ toString (edit.range.startLine + 1) ++ ",1 +"
              ++ toString (edit.range.startLine + 1) ++ ",1 @@",
            "-" ++ edit.oldText, "+" ++ edit.newText]
         else
           ["@@ -" ++ toString (edit.range.startLine + 1) ++ ",0 +"
              ++ toString (edit.range.startLine + 1) ++ ",1 @@",
            "+" ++ edit.newText]))
    ++ ["```"])

def systemMessageText : String :=
  "These are the files I\x27m working on, before I started making changes to them:"

def editsHeaderText : String :=
  "This is a sequence of edits that I made on these files, starting from the oldest to the newest:"

def finalInstructionText : String :=
  "Based on my most recent edits, what will I do next? Rewrite the code between <|code_to_edit|> and <|/code_to_edit|> based on what I will do next. Do not skip any lines. Do not be lazy."

def currentEditHeaderText (fileName : String) : String :=
  "Here is the piece of code I am currently editing in " ++ fileName ++ ":"

/-- Whether the original-code section is admitted (its estimate keeps the
running count under 60 percent of `maxTokens`, `0.6` exactly). -/
def bspTakeOriginal (ctx : PromptContext) (maxTokens : ℤ) : Prop :=
  (((0 + estimateTokens systemMessageText + 2) + estimateTokens (renderOriginalDocument ctx) : ℤ) : ℚ)
    < (maxTokens : ℚ) * (6 / 10)

instance (ctx : PromptContext) (maxTokens : ℤ) : Decidable (bspTakeOriginal ctx maxTokens) := by
  unfold bspTakeOriginal; infer_instance

/-- The running token count after the original-code decision. -/
def bspCountAfterOriginal (ctx : PromptContext) (maxTokens : ℤ) : ℤ :=
  if bspTakeOriginal ctx maxTokens then
    (0 + estimateTokens systemMessageText + 2) + estimateTokens (renderOriginalDocument ctx) + 50
  else (0 + estimateTokens systemMessageText + 2)

/-- Whether the edit-history section is admitted (70 percent cut, `0.7`
exactly). -/
def bspTakeEdits (ctx : PromptContext) (maxTokens : ℤ) : Prop :=
  ((bspCountAfterOriginal ctx maxTokens + estimateTokens (renderDocumentDiffs ctx) : ℤ) : ℚ)
    < (maxTokens : ℚ) * (7 / 10)

instance (ctx : PromptContext) (maxTokens : ℤ) : Decidable (bspTakeEdits ctx maxTokens) := by
  unfold bspTakeEdits; infer_instance

def bspCountAfterEdits (ctx : PromptContext) (maxTokens : ℤ) : ℤ :=
  if bspTakeEdits ctx maxTokens then
    bspCountAfterOriginal ctx maxTokens + estimateTokens (renderDocumentDiffs ctx) + 100
  else bspCountAfterOriginal ctx maxTokens

/-- The budget handed to `buildTokenAwareCopilotSections`
(`maxTokens - currentTokens - 200`). -/
def bspCopilotBudget (ctx : PromptContext) (maxTokens : ℤ) : ℤ :=
  maxTokens - (bspCountAfterEdits ctx maxTokens
    + estimateTokens (currentEditHeaderText ctx.fileName) + 2) - 200

/-- `buildStructuredPrompt`: the element list in push order.  The two budget
cuts gate only the original-code and edit-history sections; the header, the
copilot sections and the final instruction are always pushed.  The running
token count is factored into the `bsp*` definitions above. -/
def buildStructuredPrompt (ctx : PromptContext) (maxTokens : ℤ := 3500) :
    List PromptElement :=
  let elems2 :=
    if bspTakeOriginal ctx maxTokens then
      [{ priority := 998, content := "<|original_code|>", isBreak := false },
       singleBreak,
       { priority := 300, content := renderOriginalDocument ctx, isBreak := false },
       singleBreak,
       { priority := 995, content := "<|/original_code|>", isBreak := false },
       doubleBreak]
    else []
  let elems3 :=
    if bspTakeEdits ctx maxTokens then
      [{ priority := 900, content := editsHeaderText, isBreak := false },
       singleBreak,
       { priority := 898, content := "<|edits_to_original_code|>", isBreak := false },
       singleBreak,
       { priority := 300, content := renderDocumentDiffs ctx, isBreak := false },
       singleBreak,
       { priority := 895, content := "<|/edits_to_original_code|>", isBreak := false },
       doubleBreak]
    else []
  let copilotSections := buildTokenAwareCopilotSections ctx (bspCopilotBudget ctx maxTokens)
  [{ priority := 1000, content := systemMessageText, isBreak := false }]
    ++ elems2 ++ elems3
    ++ [{ priority := 300, content := currentEditHeaderText ctx.fileName, isBreak := false },
        doubleBreak]
    ++ [{ priority := 350, content := copilotSections.1, isBreak := false }, doubleBreak]
    ++ [{ priority := 280, content := finalInstructionText, isBreak := false }]

/-- The concatenation pass of `renderPromptElements`: push each content; for a
break element push a single newline unless the previous pushed element was
also a break. -/
def renderConcat : Bool → List PromptElement → String
  | _, [] => ""
  | lastWasBreak, e :: rest =>
      if e.isBreak then
        (if lastWasBreak then renderConcat true rest else "\n" ++ renderConcat true rest)
      else e.content ++ renderConcat false rest

/-- `renderPromptElements`: stable sort by priority descending, concatenate
with break collapsing, then collapse runs of 3 or more newlines to 2 and
trim. -/
def renderPromptElements (elements : List PromptElement) : String :=
  let sorted := elements.mergeSort (fun a b => b.priority ≤ a.priority)
  ⟨trimList (collapseNL (renderConcat false sorted).data)⟩

/-! ## autoCompleteProvider.ts: response sanitizer -/

/-- JS `\w`: ASCII letters, digits and the underscore. -/
def isWordChar (c : Char) : Bool := c.isAlphanum ∨ c = '_'

def cursorToken : String := "<|cursor|>"

/-- `.replace(/^```[\w]*\n?/, "")`: one leading fence marker with its language
tag and at most one following newline. -/
def stripLeadingFence (l : List Char) : List Char :=
  match l with
  | '`' :: '`' :: '`' :: rest =>
      let r1 := rest.dropWhile isWordChar
      match r1 with
      | '\n' :: r2 => r2
      | _ => r1
  | _ => l

/-- `.replace(/\n?```$/, "")`: one trailing fence marker and at most one
newline just before it. -/
def stripTrailingFence (l : List Char) : List Char :=
  match l.reverse with
  | '`' :: '`' :: '`' :: rest =>
      (match rest with
       | '\n' :: rest2 => rest2.reverse
       | _ => rest.reverse)
  | _ => l

/-- `.replace(/<\|cursor\|>/g, "")`: delete every occurrence of the cursor
token; the skip counter discards the remaining characters of a matched
token. -/
def removeCursorAux : Nat → List Char → List Char
  | _ + 1, [] => []
  | n + 1, _ :: rest => removeCursorAux n rest
  | 0, [] => []
  | 0, c :: rest =>
      if List.isPrefixOf cursorToken.data (c :: rest) then removeCursorAux 9 rest
      else c :: removeCursorAux 0 rest

/-- Length of a `\d+\|` match at the head of the input, if any. -/
def matchLineNum (l : List Char) : Option Nat :=
  let ds := l.takeWhile (fun c => c.isDigit)
  if ds.isEmpty then none
  else
    match l.drop ds.length with
    | '|' :: _ => some (ds.length + 1)
    | _ => none

/-- Scanner state for `.replace(/^\d+\|\s*/gm, "")`: scanning (tracking
whether the position is a line start), discarding the remaining characters of
a matched `\d+\|`, or discarding the `\s*` run after a match (tracking whether
the last discarded character was a newline, which makes the next position a
line start). -/
inductive SlnState where
  | scan (atLineStart : Bool)
  | skip (remaining : Nat)
  | wsDrop (lastWasNewline : Bool)
deriving DecidableEq

def afterSkip (n : Nat) : SlnState :=
  if n = 0 then SlnState.wsDrop false else SlnState.skip n

def slnAux : SlnState → List Char → List Char
  | _, [] => []
  | SlnState.skip n, _ :: rest => slnAux (afterSkip (n - 1)) rest
  | SlnState.wsDrop lastNL, c :: rest =>
      if wsChar c then slnAux (SlnState.wsDrop (c = '\n')) rest
      else
        (match matchLineNum (c :: rest) with
         | some m =>
             if lastNL then slnAux (afterSkip (m - 1)) rest
             else c :: slnAux (SlnState.scan (c = '\n')) rest
         | none => c :: slnAux (SlnState.scan (c = '\n')) rest)
  | SlnState.scan atStart, c :: rest =>
      match matchLineNum (c :: rest) with
      | some m =>
          if atStart then slnAux (afterSkip (m - 1)) rest
          else c :: slnAux (SlnState.scan (c = '\n')) rest
      | none => c :: slnAux (SlnState.scan (c = '\n')) rest

/-- `.replace(/^\d+\|\s*/gm, "")`. -/
def stripLineNums (l : List Char) : List Char := slnAux (SlnState.scan true) l

/-- `cleanCompletion`: strip fences, cursor tokens and line numbers, drop a
duplicated already-typed line prefix, and collapse excessive newlines. -/
def cleanCompletion (completion : String) (ctx : PromptContext) : String :=
  let s1 := stripLeadingFence completion.data
  let s2 := stripTrailingFence s1
  let s3 := removeCursorAux 0 s2
  let s4 := stripLineNums s3
  let s5 :=
    if List.isPrefixOf ctx.prefixText.data s4 then s4.drop ctx.prefixText.data.length
    else s4
  ⟨collapseNL s5⟩

/-! ## autoCompleteProvider.ts: request admission and the completion call -/

def debounceMs : ℤ := 300

/-- `isTypingRapidly`: more than 2 edits of the file in the last second
(`0.017` minutes is exactly `17/1000` here; the JS double for `0.017` differs
from it by less than `10^-15` of a minute). -/
def isTypingRapidly (editHistory : List EditHistory) (fileName : String) (now : ℤ) : Bool :=
  (getEditHistoryForFile editHistory fileName (17 / 1000) now).length > 2

/-- The configuration surface read per request (`vscode.workspace.getConfiguration`);
`none` models an unset key. -/
structure AIConfig where
  serverUrl : Option String
  apiKey : Option String
  model : Option String
  maxTokens : Option ℤ
  temperature : Option ℚ
  completionsEnabled : Option Bool
deriving DecidableEq

/-- Outcome of the one `axios.post` call: either a response (whose
`choices[0].message.content` is `some` string exactly when the shape is the
expected one), or a rejection carrying `axios.isAxiosError` and the error
code. -/
inductive AxiosOutcome where
  | success (content : Option String)
  | failure (isAxiosError : Bool) (code : Option String)
deriving DecidableEq

/-- The errors `generateCompletion` can propagate: the rethrown request
failure, or the TypeError raised while reading a malformed response shape. -/
inductive GenError where
  | requestFailed (isAxiosError : Bool) (code : Option String)
  | malformedResponse
deriving DecidableEq

/-- `generateCompletion`: build the context and the token-aware prompt, issue
exactly one backend call, and handle its outcome: a timeout
(axios error `ECONNABORTED`) yields `null`; any other rejection is rethrown;
on a response, a cancellation requested meanwhile discards the result, and
otherwise the content is trimmed and cleaned.  Returns the result, the updated
session state, and the number of backend calls issued (always 1 — there is no
retry). -/
def generateCompletion (rex : String → String → Option (List String)) (cfg : AIConfig)
    (world : World) (d : TextDoc) (line char : Nat) (cancelled : Bool) (now : ℤ)
    (outcome : AxiosOutcome) : Except GenError (Option String) × World × Nat :=
  let built := buildContext rex world d line char now
  let ctx := built.1
  let maxPromptTokens : ℤ :=
    match cfg.maxTokens with
    | some n => if n ≠ 0 then n else 500
    | none => 500
  let promptElements := buildStructuredPrompt ctx maxPromptTokens
  let finalPrompt := renderPromptElements promptElements
  match outcome with
  | AxiosOutcome.failure isAx code =>
      if isAx ∧ code = some "ECONNABORTED" then (Except.ok none, built.2, 1)
      else (Except.error (GenError.requestFailed isAx code), built.2, 1)
  | AxiosOutcome.success content =>
      if cancelled then (Except.ok none, built.2, 1)
      else
        match content with
        | none => (Except.error GenError.malformedResponse, built.2, 1)
        | some c =>
            let completion := cleanCompletion (jsTrim c) ctx
            let _ := finalPrompt
            (Except.ok (some completion), built.2, 1)

/-- What one `provideInlineCompletionItems` invocation produced. -/
structure ProvideOutcome where
  result : Except GenError (Option String)
  backendCalls : Nat
  world : World
  lastRequestTimeAfter : ℤ
  manualFlagAfter : Bool

/-- `provideInlineCompletionItems`: the enabled check, the manual-flag reset,
the debounce, the rapid-typing guard (automatic triggers only), and the
guarded call to `generateCompletion` whose errors are caught and turned into
`null`.  `automatic` is `triggerKind === Automatic`; an empty or discarded
completion yields `null`. -/
def provideInlineCompletionItems (rex : String → String → Option (List String))
    (cfg : AIConfig) (world : World) (d : TextDoc) (line char : Nat)
    (manualFlag : Bool) (now lastRequestTime : ℤ) (automatic cancelled : Bool)
    (outcome : AxiosOutcome) : ProvideOutcome :=
  let autoCompleteEnabled := cfg.completionsEnabled.getD true
  if ¬manualFlag ∧ ¬autoCompleteEnabled then
    { result := Except.ok none, backendCalls := 0, world := world,
      lastRequestTimeAfter := lastRequestTime, manualFlagAfter := manualFlag }
  else if now - lastRequestTime < debounceMs then
    { result := Except.ok none, backendCalls := 0, world := world,
      lastRequestTimeAfter := lastRequestTime, manualFlagAfter := false }
  else if automatic ∧ isTypingRapidly world.editHistory d.fileName now then
    { result := Except.ok none, backendCalls := 0, world := world,
      lastRequestTimeAfter := now, manualFlagAfter := false }
  else
    let g := generateCompletion rex cfg world d line char cancelled now outcome
    match g.1 with
    | Except.error _ =>
        { result := Except.ok none, backendCalls := g.2.2, world := g.2.1,
          lastRequestTimeAfter := now, manualFlagAfter := false }
    | Except.ok none =>
        { result := Except.ok none, backendCalls := g.2.2, world := g.2.1,
          lastRequestTimeAfter := now, manualFlagAfter := false }
    | Except.ok (some completion) =>
        if completion = "" ∨ cancelled then
          { result := Except.ok none, backendCalls := g.2.2, world := g.2.1,
            lastRequestTimeAfter := now, manualFlagAfter := false }
        else
          { result := Except.ok (some completion), backendCalls := g.2.2, world := g.2.1,
            lastRequestTimeAfter := now, manualFlagAfter := false }

/-- `triggerManualCompletion`: sets the manual flag, calls
`generateCompletion` directly with a fresh (never cancelled) token, and resets
the flag; no debounce, no rapid-typing guard, and errors propagate. -/
def triggerManualCompletion (rex : String → String → Option (List String))
    (cfg : AIConfig) (world : World) (d : TextDoc) (line char : Nat) (now : ℤ)
    (outcome : AxiosOutcome) : Except GenError (Option String) × World × Nat :=
  generateCompletion rex cfg world d line char false now outcome

/-! ## Error handling and request admission (claims C6, C7, C8, C10) -/

/-- Exactly one backend call is issued per `generateCompletion` invocation,
whatever its outcome: there is no retry. -/
theorem generateCompletion_calls (rex : String → String → Option (List String))
    (cfg : AIConfig) (world : World) (d : TextDoc) (line char : Nat)
    (cancelled : Bool) (now : ℤ) (outcome : AxiosOutcome) :
    (generateCompletion rex cfg world d line char cancelled now outcome).2.2 = 1 := by
  cases outcome with
  | success content =>
      cases content <;> simp [generateCompletion] <;> split_ifs <;> rfl
  | failure isAx code =>
      simp [generateCompletion]
      split_ifs <;> rfl

/-- C6: a timeout (axios error with code `ECONNABORTED`) makes the completion
call return `null` without raising; any other transport failure, and a
malformed response shape, are propagated to the caller as errors; in every
case exactly one backend call was made (no retry). -/
theorem completion_error_handling (rex : String → String → Option (List String))
    (cfg : AIConfig) (world : World) (d : TextDoc) (line char : Nat) (now : ℤ)
    (isAx : Bool) (code : Option String) :
    ((generateCompletion rex cfg world d line char false now
        (AxiosOutcome.failure true (some "ECONNABORTED"))).1 = Except.ok none
      ∧ (generateCompletion rex cfg world d line char false now
          (AxiosOutcome.failure true (some "ECONNABORTED"))).2.2 = 1)
    ∧ (¬ (isAx = true ∧ code = some "ECONNABORTED") →
        (generateCompletion rex cfg world d line char false now
            (AxiosOutcome.failure isAx code)).1
          = Except.error (GenError.requestFailed isAx code)
        ∧ (generateCompletion rex cfg world d line char false now
            (AxiosOutcome.failure isAx code)).2.2 = 1)
    ∧ ((generateCompletion rex cfg world d line char false now
          (AxiosOutcome.success none)).1 = Except.error GenError.malformedResponse
        ∧ (generateCompletion rex cfg world d line char false now
            (AxiosOutcome.success none)).2.2 = 1) := by
  refine ⟨⟨?_, generateCompletion_calls _ _ _ _ _ _ _ _ _⟩, ?_, ?_, ?_⟩
  · simp [generateCompletion]
  · intro hno
    constructor
    · simp only [generateCompletion]
      rw [if_neg hno]
    · exact generateCompletion_calls _ _ _ _ _ _ _ _ _
  · simp [generateCompletion]
  · exact generateCompletion_calls _ _ _ _ _ _ _ _ _

theorem completion_error_handling_witness :
    (generateCompletion (fun _ _ => none) ⟨none, none, none, none, none, none⟩
        (initialWorld (fun _ => "")) ⟨"a.ts", [], "typescript"⟩ 0 0 false 0
        (AxiosOutcome.failure false none)).1
      = Except.error (GenError.requestFailed false none)
    ∧ (generateCompletion (fun _ _ => none) ⟨none, none, none, none, none, none⟩
        (initialWorld (fun _ => "")) ⟨"a.ts", [], "typescript"⟩ 0 0 false 0
        (AxiosOutcome.failure false none)).2.2 = 1 :=
  (completion_error_handling (fun _ _ => none) ⟨none, none, none, none, none, none⟩
    (initialWorld (fun _ => "")) ⟨"a.ts", [], "typescript"⟩ 0 0 0 false none).2.1
    (by simp)

/-- C7: if cancellation was requested by the time the backend call resolves,
the successfully received result is discarded and the completion call returns
`null`; the backend call was made (and completed) all the same. -/
theorem completion_cancellation_discards (rex : String → String → Option (List String))
    (cfg : AIConfig) (world : World) (d : TextDoc) (line char : Nat) (now : ℤ)
    (content : Option String) :
    (generateCompletion rex cfg world d line char true now
        (AxiosOutcome.success content)).1 = Except.ok none
    ∧ (generateCompletion rex cfg world d line char true now
        (AxiosOutcome.success content)).2.2 = 1 := by
  constructor
  · simp [generateCompletion]
  · exact generateCompletion_calls _ _ _ _ _ _ _ _ _

/-- C8: with more than 2 edits of the active file recorded within the last
second, an automatic trigger returns `null` and makes no backend call, while
a manual trigger under the same state still issues its backend call. -/
theorem rapid_typing_guard (rex : String → String → Option (List String))
    (cfg : AIConfig) (world : World) (d : TextDoc) (line char : Nat)
    (manualFlag : Bool) (now lastRequestTime : ℤ) (cancelled : Bool)
    (outcome : AxiosOutcome)
    (h : 2 < (getEditHistoryForFile world.editHistory d.fileName (17 / 1000) now).length) :
    (provideInlineCompletionItems rex cfg world d line char manualFlag now
        lastRequestTime true cancelled outcome).result = Except.ok none
    ∧ (provideInlineCompletionItems rex cfg world d line char manualFlag now
        lastRequestTime true cancelled outcome).backendCalls = 0
    ∧ (triggerManualCompletion rex cfg world d line char now outcome).2.2 = 1 := by
  have hrapid : isTypingRapidly world.editHistory d.fileName now = true := by
    simp [isTypingRapidly]
    exact h
  refine ⟨?_, ?_, ?_⟩
  · simp only [provideInlineCompletionItems]
    split_ifs <;> simp_all
  · simp only [provideInlineCompletionItems]
    split_ifs <;> simp_all
  · exact generateCompletion_calls _ _ _ _ _ _ _ _ _

def c8World : World :=
  { editHistory :=
      [{ timestamp := 1500, range := ⟨0, 0, 0, 0⟩, oldText := "", newText := "a", fileName := "a.ts" },
       { timestamp := 1600, range := ⟨0, 0, 0, 0⟩, oldText := "", newText := "b", fileName := "a.ts" },
       { timestamp := 1700, range := ⟨0, 0, 0, 0⟩, oldText := "", newText := "c", fileName := "a.ts" }]
    viewedSnippets := []
    fileContextCache := fun _ => none
    docContent := fun _ => "" }

theorem rapid_typing_guard_witness :
    (provideInlineCompletionItems (fun _ _ => none) ⟨none, none, none, none, none, none⟩
        c8World ⟨"a.ts", [], "typescript"⟩ 0 0 false 2000 0 true false
        (AxiosOutcome.success (some "z"))).result = Except.ok none
    ∧ (provideInlineCompletionItems (fun _ _ => none) ⟨none, none, none, none, none, none⟩
        c8World ⟨"a.ts", [], "typescript"⟩ 0 0 false 2000 0 true false
        (AxiosOutcome.success (some "z"))).backendCalls = 0
    ∧ (triggerManualCompletion (fun _ _ => none) ⟨none, none, none, none, none, none⟩
        c8World ⟨"a.ts", [], "typescript"⟩ 0 0 2000
        (AxiosOutcome.success (some "z"))).2.2 = 1 :=
  rapid_typing_guard (fun _ _ => none) ⟨none, none, none, none, none, none⟩
    c8World ⟨"a.ts", [], "typescript"⟩ 0 0 false 2000 0 false
    (AxiosOutcome.success (some "z"))
    (by
      norm_num [c8World, getEditHistoryForFile, getRecentEditHistory, List.filter])

/-- C10: the public entry point never propagates an exception: whatever the
backend outcome, the call evaluates to an `ok` value; and whenever completion
generation throws an error (including the non-timeout transport and protocol
failures that `generateCompletion` rethrows), the provider catches it and
returns exactly `null`. -/
theorem provide_never_throws (rex : String → String → Option (List String))
    (cfg : AIConfig) (world : World) (d : TextDoc) (line char : Nat)
    (manualFlag : Bool) (now lastRequestTime : ℤ) (automatic cancelled : Bool)
    (outcome : AxiosOutcome) :
    (∃ v, (provideInlineCompletionItems rex cfg world d line char manualFlag now
        lastRequestTime automatic cancelled outcome).result = Except.ok v)
    ∧ (∀ e, (generateCompletion rex cfg world d line char cancelled now outcome).1
          = Except.error e →
        (provideInlineCompletionItems rex cfg world d line char manualFlag now
          lastRequestTime automatic cancelled outcome).result = Except.ok none) := by
  constructor
  · simp only [provideInlineCompletionItems]
    split_ifs <;> try exact ⟨none, rfl⟩
    rcases hg : (generateCompletion rex cfg world d line char cancelled now outcome).1 with e | oc
    · exact ⟨none, by simp [hg]⟩
    · cases oc with
      | none => exact ⟨none, by simp [hg]⟩
      | some completion =>
          by_cases hc : completion = "" ∨ cancelled
          · exact ⟨none, by simp [hg, hc]⟩
          · exact ⟨some completion, by simp [hg, hc]⟩
  · intro e he
    simp only [provideInlineCompletionItems]
    split_ifs <;> try rfl
    simp [he]

theorem provide_never_throws_witness :
    (generateCompletion (fun _ _ => none) ⟨none, none, none, none, none, none⟩
        (initialWorld (fun _ => "")) ⟨"a.ts", [], "typescript"⟩ 0 0 false 1000
        (AxiosOutcome.failure false none)).1
      = Except.error (GenError.requestFailed false none)
    ∧ (provideInlineCompletionItems (fun _ _ => none) ⟨none, none, none, none, none, none⟩
        (initialWorld (fun _ => "")) ⟨"a.ts", [], "typescript"⟩ 0 0 false 1000 0 false false
        (AxiosOutcome.failure false none)).result = Except.ok none :=
  ⟨rfl,
   (provide_never_throws (fun _ _ => none) ⟨none, none, none, none, none, none⟩
      (initialWorld (fun _ => "")) ⟨"a.ts", [], "typescript"⟩ 0 0 false 1000 0 false false
      (AxiosOutcome.failure false none)).2
    (GenError.requestFailed false none) rfl⟩

/-! ## Sanitizer example (claim C9) -/

/-- A context whose already-typed line prefix is empty (only the `prefixText`
field is read by `cleanCompletion`). -/
def emptyPromptContext : PromptContext :=
  { cursorLine := 0, cursorCharacter := 0, codeToEdit := "", areaAroundCode := "",
    currentFileContent := "", editHistory := [], viewedSnippets := [],
    prefixText := "", suffixText := "",
    fileContext := { fullContent := "", language := "", imports := [], functions := [],
                     classes := [], variablesList := [] },
    fileName := "", language := "" }

/-- C9: the fenced, line-numbered raw reply sanitizes to exactly the code. -/
theorem sanitizer_fenced_line_numbered :
    cleanCompletion "```js\n12| foo()\n```" emptyPromptContext = "foo()" := by
  decide

/-! ## Mandatory sections of the rendered prompt (claim C4) -/

theorem collapseNL_keep {p l : List Char} (hp : '\n' ∉ p) (hne : p ≠ [])
    (h : occursIn p l) : occursIn p (collapseNL l) := by
  obtain ⟨a, b, rfl⟩ := h
  obtain ⟨a2, b2, heq, _, _⟩ := collapseNLAux_ctx p hp hne a 0 b
  exact ⟨a2, b2, heq⟩

/-- `array.join("\n")` of a list ending in four known entries: the last four
entries appear verbatim, newline-separated, at the end. -/
theorem joinNL_four (xs : List String) (a b c d : String) :
    ∃ p, (joinNL (xs ++ [a, b, c, d])).data
      = p ++ (a.data ++ "\n".data ++ (b.data ++ "\n".data ++ (c.data ++ "\n".data ++ d.data))) := by
  induction xs with
  | nil =>
      refine ⟨[], ?_⟩
      simp [joinNL, String.data_append, List.append_assoc]
  | cons x xs ih =>
      obtain ⟨p, hp⟩ := ih
      cases hxs : xs ++ [a, b, c, d] with
      | nil => simp at hxs
      | cons y ys =>
          refine ⟨x.data ++ "\n".data ++ p, ?_⟩
          have hstep : joinNL ((x :: xs) ++ [a, b, c, d])
              = x ++ "\n" ++ joinNL (xs ++ [a, b, c, d]) := by
            rw [List.cons_append, hxs]
            rfl
          rw [hstep, String.data_append, String.data_append, hp]
          simp [List.append_assoc]

/-- The copilot sections always end with the area-around-code section, the
code-to-edit section and the two closing instruction blocks, in that order. -/
theorem btacs_decomp (ctx : PromptContext) (avail : ℤ) :
    ∃ p, ((buildTokenAwareCopilotSections ctx avail).1).data
      = p ++ (("<|area_around_code_to_edit|>\n" ++ ctx.areaAroundCode ++ "\n<|/area_around_code_to_edit|>\n").data
          ++ "\n".data
          ++ (("<|code_to_edit|>\n" ++ ctx.codeToEdit ++ "\n<|/code_to_edit|>\n").data
          ++ "\n".data
          ++ ((tailInstructionBlock ctx.fileName).data
          ++ "\n".data
          ++ "Please provide the completed code for the cursor position:".data))) := by
  simp only [buildTokenAwareCopilotSections]
  exact joinNL_four _ _ _ _ _

/-- The copilot-sections element (priority 350) is pushed unconditionally by
`buildStructuredPrompt`, whatever the budget. -/
theorem bsp_copilot_mem (ctx : PromptContext) (maxTokens : ℤ) :
    ({ priority := 350,
       content := (buildTokenAwareCopilotSections ctx (bspCopilotBudget ctx maxTokens)).1,
       isBreak := false } : PromptElement) ∈ buildStructuredPrompt ctx maxTokens := by
  simp only [buildStructuredPrompt]
  simp [List.mem_append]

/-- The content of every non-break element of the list appears contiguously in
the concatenation pass of the renderer. -/
theorem renderConcat_mem {e : PromptElement} :
    ∀ (els : List PromptElement) (flag : Bool), e ∈ els → e.isBreak = false →
      ∃ X Y, (renderConcat flag els).data = X ++ e.content.data ++ Y := by
  intro els
  induction els with
  | nil => intro flag h; cases h
  | cons f rest ih =>
      intro flag h hbr
      rcases List.mem_cons.mp h with rfl | hmem
      · refine ⟨[], (renderConcat false rest).data, ?_⟩
        simp [renderConcat, hbr, String.data_append]
      · by_cases hf : f.isBreak
        · by_cases hflag : flag
          · obtain ⟨X, Y, hXY⟩ := ih true hmem hbr
            exact ⟨X, Y, by simp [renderConcat, hf, hflag, hXY]⟩
          · obtain ⟨X, Y, hXY⟩ := ih true hmem hbr
            exact ⟨"\n".data ++ X, Y, by
              simp [renderConcat, hf, hflag, String.data_append, hXY, List.append_assoc]⟩
        · obtain ⟨X, Y, hXY⟩ := ih false hmem hbr
          exact ⟨f.content.data ++ X, Y, by
            simp [renderConcat, hf, String.data_append, hXY, List.append_assoc]⟩

/-- C4: for every token budget (zero and negative values included), the
rendered prompt contains the area-around-code marker, the code-to-edit
marker, and the cursor-marked edit target (already-typed prefix, cursor
sentinel, suffix); no budget admission decision can drop them.  The one
hypothesis reflects that a `vscode` line never contains a newline. -/
theorem mandatory_sections_present (rex : String → String → Option (List String))
    (world : World) (d : TextDoc) (line char : Nat) (now : ℤ) (maxTokens : ℤ)
    (h : '\n' ∉ (d.lines.getD line "").data) :
    occursIn "<|area_around_code_to_edit|>".data
      (renderPromptElements
        (buildStructuredPrompt (buildContext rex world d line char now).1 maxTokens)).data
    ∧ occursIn "<|code_to_edit|>".data
      (renderPromptElements
        (buildStructuredPrompt (buildContext rex world d line char now).1 maxTokens)).data
    ∧ occursIn ((buildContext rex world d line char now).1.prefixText ++ cursorToken
        ++ (buildContext rex world d line char now).1.suffixText).data
      (renderPromptElements
        (buildStructuredPrompt (buildContext rex world d line char now).1 maxTokens)).data := by
  set ctx := (buildContext rex world d line char now).1 with hctx
  have hpre : ctx.prefixText.data = (d.lines.getD line "").data.take char := rfl
  have hsuf : ctx.suffixText.data = (d.lines.getD line "").data.drop char := rfl
  have hcode : ctx.codeToEdit = ctx.prefixText ++ cursorToken ++ ctx.suffixText := rfl
  have hnlpre : '\n' ∉ ctx.prefixText.data := by
    rw [hpre]; intro hm; exact h (List.take_subset _ _ hm)
  have hnlsuf : '\n' ∉ ctx.suffixText.data := by
    rw [hsuf]; intro hm; exact h (List.drop_subset _ _ hm)
  have hnlseg : '\n' ∉ (ctx.prefixText ++ cursorToken ++ ctx.suffixText).data := by
    rw [String.data_append, String.data_append]
    intro hm
    rcases List.mem_append.mp hm with hm1 | hm2
    · rcases List.mem_append.mp hm1 with hm3 | hm4
      · exact hnlpre hm3
      · exact absurd hm4 (by decide)
    · exact hnlsuf hm2
  have hsegne : (ctx.prefixText ++ cursorToken ++ ctx.suffixText).data ≠ [] := by
    rw [String.data_append, String.data_append]
    intro hemp
    have h1 := List.append_eq_nil.mp hemp
    have h2 := List.append_eq_nil.mp h1.1
    exact absurd h2.2 (by decide)
  -- the copilot element and its position in the concatenated render
  have hmem := bsp_copilot_mem ctx maxTokens
  have hmem2 : (⟨350,
      (buildTokenAwareCopilotSections ctx (bspCopilotBudget ctx maxTokens)).1,
      false⟩ : PromptElement)
      ∈ (buildStructuredPrompt ctx maxTokens).mergeSort (fun a b => b.priority ≤ a.priority) :=
    ((List.mergeSort_perm (buildStructuredPrompt ctx maxTokens)
        (fun a b => b.priority ≤ a.priority)).mem_iff).mpr hmem
  obtain ⟨X, Y, hXY⟩ := renderConcat_mem _ false hmem2 rfl
  obtain ⟨P, hP⟩ := btacs_decomp ctx (bspCopilotBudget ctx maxTokens)
  have hrend : (renderPromptElements (buildStructuredPrompt ctx maxTokens)).data
      = trimList (collapseNL (renderConcat false
          ((buildStructuredPrompt ctx maxTokens).mergeSort
            (fun a b => b.priority ≤ a.priority))).data) := rfl
  -- split the two composite section strings at their markers
  have hA1 : ("<|area_around_code_to_edit|>\n" : String)
      = "<|area_around_code_to_edit|>" ++ "\n" := by decide
  have hB1 : ("<|code_to_edit|>\n" : String) = "<|code_to_edit|>" ++ "\n" := by decide
  rw [hA1, hB1, hcode] at hP
  simp only [String.data_append] at hP
  -- a single occurrence statement for the pre-collapse concatenation
  have hconcat : (renderConcat false
      ((buildStructuredPrompt ctx maxTokens).mergeSort
        (fun a b => b.priority ≤ a.priority))).data
      = (X ++ (P ++ ("<|area_around_code_to_edit|>".data ++ "\n".data
            ++ ctx.areaAroundCode.data ++ "\n<|/area_around_code_to_edit|>\n".data
            ++ "\n".data ++ "<|code_to_edit|>".data ++ "\n".data)))
        ++ (ctx.prefixText ++ cursorToken ++ ctx.suffixText).data
        ++ (("\n<|/code_to_edit|>\n".data ++ "\n".data
            ++ (tailInstructionBlock ctx.fileName).data ++ "\n".data
            ++ "Please provide the completed code for the cursor position:".data) ++ Y) := by
    rw [hXY, hP]
    simp only [String.data_append, List.append_assoc]
  -- 1. the area marker
  have hoccA : occursIn "<|area_around_code_to_edit|>".data
      (renderConcat false
        ((buildStructuredPrompt ctx maxTokens).mergeSort
          (fun a b => b.priority ≤ a.priority))).data := by
    refine ⟨X ++ P, ?_, ?_⟩
    · exact "\n".data ++ ctx.areaAroundCode.data ++ "\n<|/area_around_code_to_edit|>\n".data
        ++ "\n".data ++ "<|code_to_edit|>".data ++ "\n".data
        ++ (ctx.prefixText ++ cursorToken ++ ctx.suffixText).data
        ++ "\n<|/code_to_edit|>\n".data ++ "\n".data
        ++ (tailInstructionBlock ctx.fileName).data ++ "\n".data
        ++ "Please provide the completed code for the cursor position:".data ++ Y
    · rw [hconcat]; simp only [String.data_append, List.append_assoc]
  -- 2. the code-to-edit marker
  have hoccB : occursIn "<|code_to_edit|>".data
      (renderConcat false
        ((buildStructuredPrompt ctx maxTokens).mergeSort
          (fun a b => b.priority ≤ a.priority))).data := by
    refine ⟨X ++ P ++ "<|area_around_code_to_edit|>".data ++ "\n".data
        ++ ctx.areaAroundCode.data ++ "\n<|/area_around_code_to_edit|>\n".data ++ "\n".data,
      ?_, ?_⟩
    · exact "\n".data
        ++ (ctx.prefixText ++ cursorToken ++ ctx.suffixText).data
        ++ "\n<|/code_to_edit|>\n".data ++ "\n".data
        ++ (tailInstructionBlock ctx.fileName).data ++ "\n".data
        ++ "Please provide the completed code for the cursor position:".data ++ Y
    · rw [hconcat]; simp only [String.data_append, List.append_assoc]
  refine ⟨?_, ?_, ?_⟩
  · rw [hrend]
    exact trimList_keep (by decide) (by decide) (collapseNL_keep (by decide) (by decide) hoccA)
  · rw [hrend]
    exact trimList_keep (by decide) (by decide) (collapseNL_keep (by decide) (by decide) hoccB)
  · -- 3. the cursor-marked edit target, with non-whitespace context kept on
    -- both sides through the collapse and the trim
    obtain ⟨a2, b2, heq, hmema, hmemb⟩ :=
      collapseNLAux_ctx ((ctx.prefixText ++ cursorToken ++ ctx.suffixText).data) hnlseg hsegne
        (X ++ (P ++ ("<|area_around_code_to_edit|>".data ++ "\n".data
            ++ ctx.areaAroundCode.data ++ "\n<|/area_around_code_to_edit|>\n".data
            ++ "\n".data ++ "<|code_to_edit|>".data ++ "\n".data)))
        0
        (("\n<|/code_to_edit|>\n".data ++ "\n".data
            ++ (tailInstructionBlock ctx.fileName).data ++ "\n".data
            ++ "Please provide the completed code for the cursor position:".data) ++ Y)
    have hcoll : collapseNL (renderConcat false
        ((buildStructuredPrompt ctx maxTokens).mergeSort
          (fun a b => b.priority ≤ a.priority))).data
        = a2 ++ (ctx.prefixText ++ cursorToken ++ ctx.suffixText).data ++ b2 := by
      rw [collapseNL, hconcat]
      exact heq
    have hlt : '<' ∈ a2 := by
      refine hmema '<' ?_ (by decide)
      refine List.mem_append_right X ?_
      refine List.mem_append_right P ?_
      simp [List.mem_append]
    have hltb : '<' ∈ b2 := by
      refine hmemb '<' ?_ (by decide)
      refine List.mem_append_left Y ?_
      simp [List.mem_append]
    rw [hrend]
    exact trimList_ctx hcoll ⟨'<', hlt, by decide⟩ ⟨'<', hltb, by decide⟩

theorem mandatory_sections_present_witness :
    '\n' ∉ (((⟨"a.ts", ["let x = 1"], "typescript"⟩ : TextDoc)).lines.getD 0 "").data
    ∧ (occursIn "<|area_around_code_to_edit|>".data
        (renderPromptElements
          (buildStructuredPrompt
            (buildContext (fun _ _ => none) (initialWorld (fun _ => ""))
              ⟨"a.ts", ["let x = 1"], "typescript"⟩ 0 4 0).1 0)).data
      ∧ occursIn "<|code_to_edit|>".data
        (renderPromptElements
          (buildStructuredPrompt
            (buildContext (fun _ _ => none) (initialWorld (fun _ => ""))
              ⟨"a.ts", ["let x = 1"], "typescript"⟩ 0 4 0).1 0)).data
      ∧ occursIn ((buildContext (fun _ _ => none) (initialWorld (fun _ => ""))
              ⟨"a.ts", ["let x = 1"], "typescript"⟩ 0 4 0).1.prefixText ++ cursorToken
            ++ (buildContext (fun _ _ => none) (initialWorld (fun _ => ""))
              ⟨"a.ts", ["let x = 1"], "typescript"⟩ 0 4 0).1.suffixText).data
        (renderPromptElements
          (buildStructuredPrompt
            (buildContext (fun _ _ => none) (initialWorld (fun _ => ""))
              ⟨"a.ts", ["let x = 1"], "typescript"⟩ 0 4 0).1 0)).data) :=
  ⟨by decide,
   mandatory_sections_present (fun _ _ => none) (initialWorld (fun _ => ""))
     ⟨"a.ts", ["let x = 1"], "typescript"⟩ 0 4 0 0 (by decide)⟩

/-! ## Whitespace discipline of the rendered prompt (claim C5) -/

theorem run3_collapseNL (l : List Char) : run3Aux 0 (collapseNL l) = false :=
  run3_collapse l 0

/-- C5: for every list of prompt elements, the rendered string contains no run
of three or more consecutive newline characters, and neither starts nor ends
with a whitespace character. -/
theorem rendered_prompt_whitespace_discipline (elements : List PromptElement) :
    ¬ occursIn ['\n', '\n', '\n'] (renderPromptElements elements).data
    ∧ (renderPromptElements elements).data.head?.all (fun c => ! wsChar c) = true
    ∧ (renderPromptElements elements).data.getLast?.all (fun c => ! wsChar c) = true := by
  have hrend : (renderPromptElements elements).data
      = trimList (collapseNL (renderConcat false
          (elements.mergeSort (fun a b => b.priority ≤ a.priority))).data) := rfl
  refine ⟨?_, ?_, ?_⟩
  · intro hocc
    rw [hrend] at hocc
    have h2 := run3_of_occurs (occursIn_of_trimList hocc)
    have h3 := run3_collapseNL (renderConcat false
      (elements.mergeSort (fun a b => b.priority ≤ a.priority))).data
    rw [h2] at h3
    cases h3
  · rw [hrend]
    cases hh : (trimList (collapseNL (renderConcat false
        (elements.mergeSort (fun a b => b.priority ≤ a.priority))).data)).head? with
    | none => simp [hh]
    | some c =>
        have := trimList_head hh
        simp [hh, Option.all, this]
  · rw [hrend]
    cases hh : (trimList (collapseNL (renderConcat false
        (elements.mergeSort (fun a b => b.priority ≤ a.priority))).data)).getLast? with
    | none => simp [hh]
    | some c =>
        have := trimList_getLast hh
        simp [hh, Option.all, this]

theorem rendered_prompt_whitespace_discipline_witness :
    ¬ occursIn ['\n', '\n', '\n'] (renderPromptElements [doubleBreak, doubleBreak]).data
    ∧ (renderPromptElements [doubleBreak, doubleBreak]).data.head?.all (fun c => ! wsChar c) = true
    ∧ (renderPromptElements [doubleBreak, doubleBreak]).data.getLast?.all (fun c => ! wsChar c) = true :=
  rendered_prompt_whitespace_discipline [doubleBreak, doubleBreak]

theorem unsupportedLanguage_lists_not_empty_witness :
    (analyzeFile (fun _ _ => none) "x" "lua").imports = [""]
    ∧ (analyzeFile (fun _ _ => none) "x" "lua").functions = [""]
    ∧ (analyzeFile (fun _ _ => none) "x" "lua").classes = [""]
    ∧ (analyzeFile (fun _ _ => none) "x" "lua").variablesList = [""]
    ∧ ¬ ((analyzeFile (fun _ _ => none) "x" "lua").imports = []
         ∧ (analyzeFile (fun _ _ => none) "x" "lua").functions = []
         ∧ (analyzeFile (fun _ _ => none) "x" "lua").classes = []
         ∧ (analyzeFile (fun _ _ => none) "x" "lua").variablesList = []) :=
  unsupportedLanguage_lists_not_empty (fun _ _ => none) "x"
